import Mathlib

/-!
Shallow embedding of the windowed frame-selection pipeline of `timelapse-rs`
(`src/frame_selection.rs`, `src/decoder.rs`, `src/processing.rs`,
`src/request.rs`), together with theorems settling the specification claims.

Machine integers are modelled as `Nat`/`Int` with explicit clamping where the
source uses saturating arithmetic; `f64` results of `mse` are modelled exactly
over `ℚ` (the integer sum and the length both fit a `u32`, so the only
floating-point effect in the source is the final division's rounding, which
the rational model computes exactly).  Panicking control paths (out-of-bounds
`Vec::remove`, `Option::unwrap` on a failed buffer conversion) are modelled as
an explicit `panicked` outcome.
-/

namespace Timelapse

/-- A decoded raw video frame: pixel buffer (plane 0, as byte values),
declared width and height.  Mirrors the parts of `ffmpeg`'s `VideoFrame`
the selection code reads (`frame.data(0)`, `frame.width()`,
`frame.height()`). -/
structure Frame where
  data : List Nat
  width : Nat
  height : Nat
deriving DecidableEq, Repr

/-- Outcome of one `pick_best` call: the chosen frame plus the selector state
after the call, an `EmptyInput` error (state unchanged), or a panic
(`Vec::remove(0)` on an empty vector / `unwrap` failure). -/
inductive PickResult (σ : Type) where
  | ok (frame : Frame) (st : σ)
  | emptyInput (st : σ)
  | panicked
deriving DecidableEq, Repr

/-- `get_luma_data` (frame_selection.rs:60-66): every 3rd byte of the frame's
plane-0 buffer, indices `0, 3, 6, …`, one per `len / 3` iterations. -/
def getLumaData (data : List Nat) : List Nat :=
  (List.range (data.length / 3)).map (fun i => data.getD (i * 3) 0)

/-- The same loop with fallible indexing: `none` would mean an out-of-bounds
read (a panic in Rust).  Used to show the luma extraction never panics. -/
def getLumaDataChecked (data : List Nat) : Option (List Nat) :=
  (List.range (data.length / 3)).mapM (fun i => data.get? (i * 3))

/-- `u32::MAX`, the saturation bound of the `mse` accumulator. -/
def u32Max : Nat := 4294967295

/-- One term of the `mse` sum (frame_selection.rs:70): the byte values are
widened to `i16`, subtracted exactly, and squared with
`i16::saturating_pow(2)`, which clamps at `i16::MAX = 32767`; the result
(always non-negative) is then cast to `u16` and widened to `u32`. -/
def sqDiffSat (a b : Nat) : Nat :=
  min (((a : Int) - (b : Int)).natAbs ^ 2) 32767

/-- `u32::saturating_add`. -/
def satAdd (x y : Nat) : Nat := min (x + y) u32Max

/-- The saturating fold of the squared-difference terms over the zipped
byte sequences (frame_selection.rs:69-71). -/
def mseSum (v1 v2 : List Nat) : Nat :=
  ((v1.zip v2).map (fun p => sqDiffSat p.1 p.2)).foldl satAdd 0

/-- `mse` (frame_selection.rs:68-73): saturated sum of clamped squared
differences divided by `vec1.len() as u32`, modelled exactly over `ℚ`.
The `as u32` cast wraps the length modulo `2^32`. -/
def mse (v1 v2 : List Nat) : ℚ :=
  (mseSum v1 v2 : ℚ) / ((v1.length % 4294967296 : Nat) : ℚ)

/-- Rayon's `min_by` / `min_by_key` on a parallel iterator: an order-respecting
reduction whose combiner keeps the earlier element unless the later one is
strictly smaller, so the leftmost minimum wins for every reduction tree.
Modelled as the corresponding left fold. -/
def rayonMinBy {α β : Type} [LinearOrder β] (f : α → β) : List α → Option α
  | [] => none
  | x :: xs => some (xs.foldl (fun a b => if f b < f a then b else a) x)

/-- `MSEFrameSelector::pick_best` (frame_selection.rs:32-57).  State is the
remembered luma buffer of the last selected frame (`last_frame`).  With no
reference yet, `window.remove(0)` panics on an empty window; otherwise the
first frame is returned and seeds the state.  With a reference, the frame
minimising `mse(luma, previous_luma)` is selected (`min_by` over the rayon
iterator), `None` on an empty window becoming `EmptyInput`. -/
def msePickBest (last : Option (List Nat)) (window : List Frame) :
    PickResult (Option (List Nat)) :=
  match last with
  | none =>
    match window with
    | [] => .panicked
    | f :: _ => .ok f (some (getLumaData f.data))
  | some prev =>
    match rayonMinBy (fun fr => mse (getLumaData fr.data) prev) window with
    | none => .emptyInput (some prev)
    | some f => .ok f (some (getLumaData f.data))

/-- Whether a frame's buffer length matches the row-major packed RGB layout
(3 channel samples per pixel) declared by its width and height.  This is the
condition under which the external `FlatSamples::try_into_buffer` conversion
in `hash_frame` (frame_selection.rs:98-111) succeeds. -/
def validSize (f : Frame) : Bool :=
  f.data.length == 3 * f.width * f.height

/-- `hash_frame` (frame_selection.rs:98-111) with the panic made explicit:
the hash itself is computed by the external `img_hash` collaborator
(parameter `hashFn`); the `.unwrap()` on `try_into_buffer` panics (`none`)
exactly when the buffer does not fit the declared `3 × width × height`
row-major packed RGB layout. -/
def hashFrameChecked (H : Type) (hashFn : Frame → H) (f : Frame) : Option H :=
  if validSize f then some (hashFn f) else none

/-- `HashFrameSelector::pick_best` (frame_selection.rs:122-152).  State is
the remembered hash of the last selected frame (`last_hash`).  `hashFn` and
`dist` are the external hashing collaborator (`Hasher::hash_image` and
`ImageHash::dist`).  A window containing a frame whose buffer fails the
layout conversion makes the call panic (the `unwrap` inside `hash_frame`);
otherwise the frame of minimal hash distance to the reference is selected
(`min_by_key`), ties to the earliest. -/
def hashPickBest (H : Type) (hashFn : Frame → H) (dist : H → H → Nat)
    (last : Option H) (window : List Frame) : PickResult (Option H) :=
  match last with
  | none =>
    match window with
    | [] => .panicked
    | f :: _ =>
      match hashFrameChecked H hashFn f with
      | none => .panicked
      | some h => .ok f (some h)
  | some lh =>
    if window.all (fun f => validSize f) then
      match rayonMinBy (fun fr => dist lh (hashFn fr)) window with
      | none => .emptyInput (some lh)
      | some f => .ok f (some (hashFn f))
    else .panicked

/-- `NoopFrameSelector::pick_best` (frame_selection.rs:157-166): explicit
emptiness check, then the first frame; no state. -/
def noopPickBest (window : List Frame) : PickResult Unit :=
  match window with
  | [] => .emptyInput ()
  | f :: _ => .ok f ()

/-- `ComparisonMode` (request.rs:114-122). -/
inductive ComparisonMode where
  | Noop
  | Blockhash
  | GradientHash
  | MeanHash
  | MSE
  | SSIM
deriving DecidableEq, Repr

/-- The panic raised by `get_frame_selector`'s wildcard arm
(frame_selection.rs:22). -/
inductive SelectorPanic where
  | unsupportedMode (mode : ComparisonMode)
deriving DecidableEq, Repr

/-- The three selector families constructed by `get_frame_selector`; the hash
selector remembers which hash algorithm the request configured. -/
inductive SelectorKind where
  | noopSelector
  | hashSelector (mode : ComparisonMode)
  | mseSelector
deriving DecidableEq, Repr

/-- `get_frame_selector` (frame_selection.rs:17-24): dispatch on the
request's comparison mode; the wildcard arm (reached only by `SSIM`)
panics before any frame is processed. -/
def getFrameSelector : ComparisonMode → Except SelectorPanic SelectorKind
  | .Noop => .ok .noopSelector
  | .Blockhash => .ok (.hashSelector .Blockhash)
  | .GradientHash => .ok (.hashSelector .GradientHash)
  | .MeanHash => .ok (.hashSelector .MeanHash)
  | .MSE => .ok .mseSelector
  | .SSIM => .error (.unsupportedMode .SSIM)

/-- `char::to_ascii_lowercase`: shift `A`–`Z` down to `a`–`z`, leave every
other character unchanged. -/
def asciiLower (c : Char) : Char :=
  if 'A' ≤ c ∧ c ≤ 'Z' then Char.ofNat (c.toNat + 32) else c

/-- The `Display` (= derived `Debug`) rendering of a `ComparisonMode`
(request.rs:149-153): the variant's name. -/
def modeName : ComparisonMode → List Char
  | .Noop => ['N', 'o', 'o', 'p']
  | .Blockhash => ['B', 'l', 'o', 'c', 'k', 'h', 'a', 's', 'h']
  | .GradientHash => ['G', 'r', 'a', 'd', 'i', 'e', 'n', 't', 'H', 'a', 's', 'h']
  | .MeanHash => ['M', 'e', 'a', 'n', 'H', 'a', 's', 'h']
  | .MSE => ['M', 'S', 'E']
  | .SSIM => ['S', 'S', 'I', 'M']

/-- `ParseComparisonModeError` (request.rs:124-125). -/
inductive ParseComparisonModeError where
  | parseError
deriving DecidableEq, Repr

/-- `ComparisonMode::from_str` (request.rs:136-146): ASCII-lowercase the
input, then match it against the six mode keywords. -/
def comparisonModeFromStr (s : List Char) :
    Except ParseComparisonModeError ComparisonMode :=
  if s.map asciiLower = ['n', 'o', 'o', 'p'] then .ok .Noop
  else if s.map asciiLower = ['b', 'l', 'o', 'c', 'k', 'h', 'a', 's', 'h'] then .ok .Blockhash
  else if s.map asciiLower = ['g', 'r', 'a', 'd', 'i', 'e', 'n', 't', 'h', 'a', 's', 'h'] then
    .ok .GradientHash
  else if s.map asciiLower = ['m', 'e', 'a', 'n', 'h', 'a', 's', 'h'] then .ok .MeanHash
  else if s.map asciiLower = ['m', 's', 'e'] then .ok .MSE
  else if s.map asciiLower = ['s', 's', 'i', 'm'] then .ok .SSIM
  else .error .parseError

/-- The configuration fields of `Request` (request.rs) that the window
acquisition code reads, plus the video stream index resolved at
construction time. -/
structure Req where
  windowSize : Nat
  frameSkip : Nat
  keyFramesOnly : Bool
  videoStreamId : Nat
deriving DecidableEq, Repr

/-- What `decoder.decode(&packet, &mut frame)` produces for one packet:
a decode error (code), an empty frame, or a raw frame. -/
inductive DecodeOutcome where
  | fail (code : Nat)
  | empty
  | ok (raw : Frame)
deriving DecidableEq, Repr

/-- What `scaler.run(&frame, &mut rgb_frame)` produces for one decoded
frame: a scaling error (code) or the scaled frame. -/
inductive ScaleOutcome where
  | fail (code : Nat)
  | ok (f : Frame)
deriving DecidableEq, Repr

/-- One demuxed packet together with the behaviour of the external decode
and scale operations on it: its stream index, its key-frame flag, its decode
outcome, and the result of `scaler.run` on its decoded frame. -/
structure Packet where
  stream : Nat
  isKey : Bool
  decode : DecodeOutcome
  scale : ScaleOutcome
deriving DecidableEq, Repr

/-- The `ffmpeg::Error` values distinguished by the window code: `Eof`
versus any other error (kept as a code). -/
inductive FfErr where
  | eof
  | other (code : Nat)
deriving DecidableEq, Repr

/-- `Decoder::next_frame` (decoder.rs:90-129) starting from a given skip
count (the function initialises it to `request.frame_skip` on entry):
walk the packet stream, dropping non-video packets, non-key packets when
`key_frames_only` is set, then `skip` eligible packets; decode and scale the
next eligible packet, propagating decode/scale errors; empty decoded frames
are passed over; an exhausted stream yields `Eof`.  Returns the result and
the packets not yet consumed. -/
def decoderNextFrameAux (req : Req) :
    Nat → List Packet → Except FfErr Frame × List Packet
  | _, [] => (.error .eof, [])
  | skip, p :: rest =>
    if p.stream ≠ req.videoStreamId then
      decoderNextFrameAux req skip rest
    else if req.keyFramesOnly ∧ ¬ p.isKey then
      decoderNextFrameAux req skip rest
    else if 0 < skip then
      decoderNextFrameAux req (skip - 1) rest
    else
      match p.decode with
      | .fail e => (.error (.other e), rest)
      | .empty => decoderNextFrameAux req skip rest
      | .ok _ =>
        match p.scale with
        | .fail e => (.error (.other e), rest)
        | .ok f => (.ok f, rest)

/-- `Decoder::next_frame` proper: the skip counter starts at
`request.frame_skip` on every call. -/
def decoderNextFrame (req : Req) (ps : List Packet) :
    Except FfErr Frame × List Packet :=
  decoderNextFrameAux req req.frameSkip ps

/-- The accumulation loop of `Decoder::next_window` (decoder.rs:75-81):
repeatedly call `next_frame` while fewer than `n` more frames are needed;
`Eof` breaks out with the frames gathered so far, any other error is
returned as-is. -/
def decoderNextWindowAux (req : Req) :
    Nat → List Packet → List Frame → Except FfErr (List Frame) × List Packet
  | 0, ps, acc => (.ok acc.reverse, ps)
  | n + 1, ps, acc =>
    match decoderNextFrame req ps with
    | (.ok f, rest) => decoderNextWindowAux req n rest (f :: acc)
    | (.error .eof, rest) => (.ok acc.reverse, rest)
    | (.error (.other e), rest) => (.error (.other e), rest)

/-- `Decoder::next_window` (decoder.rs:72-88): run the accumulation loop
with capacity `window_size`, then map an empty window to `Err(Eof)`
(decoder.rs:83-87). -/
def decoderNextWindow (req : Req) (ps : List Packet) :
    Except FfErr (List Frame) × List Packet :=
  match decoderNextWindowAux req req.windowSize ps [] with
  | (.ok w, rest) => (if w.isEmpty then .error .eof else .ok w, rest)
  | (.error e, rest) => (.error e, rest)

/-- `TimelapseContext::next_window` (processing.rs:118-178) from a given
skip count and accumulator: one `while window.len() < window_size` loop over
the packet iterator, with the same stream / key-frame / skip filtering as the
decoder but the skip counter threaded across the whole window and reset to
`frame_skip` after each admitted frame; stream exhaustion returns the partial
(possibly empty) window as `Ok`. -/
def procNextWindowAux (req : Req) :
    List Packet → Nat → List Frame → Except FfErr (List Frame) × List Packet
  | [], _, acc => (.ok acc.reverse, [])
  | p :: rest, skip, acc =>
    if req.windowSize ≤ acc.length then (.ok acc.reverse, p :: rest)
    else if p.stream ≠ req.videoStreamId then
      procNextWindowAux req rest skip acc
    else if req.keyFramesOnly ∧ ¬ p.isKey then
      procNextWindowAux req rest skip acc
    else if 0 < skip then
      procNextWindowAux req rest (skip - 1) acc
    else
      match p.decode with
      | .fail e => (.error (.other e), rest)
      | .empty => procNextWindowAux req rest skip acc
      | .ok _ =>
        match p.scale with
        | .fail e => (.error (.other e), rest)
        | .ok f => procNextWindowAux req rest req.frameSkip (f :: acc)

/-- `TimelapseContext::next_window` proper: the skip counter starts at
`request.frame_skip` (processing.rs:120). -/
def procNextWindow (req : Req) (ps : List Packet) :
    Except FfErr (List Frame) × List Packet :=
  procNextWindowAux req ps req.frameSkip []

/-- A packet passes the stream and key-frame filters. -/
def eligible (req : Req) (p : Packet) : Bool :=
  p.stream == req.videoStreamId && (!req.keyFramesOnly || p.isKey)

/-- The scaled frame a packet yields (meaningful for packets whose scale
operation succeeds). -/
def scaledFrame (p : Packet) : Frame :=
  match p.scale with
  | .ok f => f
  | .fail _ => ⟨[], 0, 0⟩

/-- A packet decodes to a non-empty frame and scales successfully. -/
def cleanPacket (p : Packet) : Bool :=
  (match p.decode with
    | .ok _ => true
    | _ => false)
  && (match p.scale with
    | .ok _ => true
    | _ => false)

/-- The skip/take admission pattern over a list of candidate frames:
drop `skip` elements, take one, reset the counter to `k`, stopping after
`cap` elements have been taken. -/
def admitPattern (k : Nat) : List Frame → Nat → Nat → List Frame
  | [], _, _ => []
  | f :: fs, skip, cap =>
    if cap = 0 then []
    else if 0 < skip then admitPattern k fs (skip - 1) cap
    else f :: admitPattern k fs k (cap - 1)

/-! ### Helper lemmas about the rayon minimum reduction -/

theorem foldl_min_eq_foldl_argAux {α β : Type} [LinearOrder β] (f : α → β) :
    ∀ (xs : List α) (a : α),
      List.foldl (List.argAux fun b c => f b < f c) (some a) xs
        = some (xs.foldl (fun p q => if f q < f p then q else p) a)
  | [], _ => rfl
  | x :: xs, a => by
    have harg : List.argAux (fun b c : α => f b < f c) (some a) x
        = if f x < f a then some x else some a := rfl
    rw [List.foldl_cons, List.foldl_cons, harg]
    by_cases h : f x < f a
    · rw [if_pos h, if_pos h]
      exact foldl_min_eq_foldl_argAux f xs x
    · rw [if_neg h, if_neg h]
      exact foldl_min_eq_foldl_argAux f xs a

theorem rayonMinBy_eq_argmin {α β : Type} [LinearOrder β] (f : α → β) :
    ∀ l : List α, rayonMinBy f l = l.argmin f
  | [] => rfl
  | x :: xs => by
    have hnone : List.argAux (fun b c : α => f b < f c) none x = some x := rfl
    rw [rayonMinBy, List.argmin, List.foldl_cons, hnone,
      foldl_min_eq_foldl_argAux f xs x]

theorem rayonMinBy_spec {α β : Type} [LinearOrder β] [DecidableEq α]
    (f : α → β) (l : List α) (hl : l ≠ []) :
    ∃ m, rayonMinBy f l = some m ∧ m ∈ l ∧ (∀ a ∈ l, f m ≤ f a) ∧
      ∀ a ∈ l, f a ≤ f m → l.indexOf m ≤ l.indexOf a := by
  cases h : l.argmin f with
  | none => exact absurd (List.argmin_eq_none.mp h) hl
  | some m =>
    have hm : m ∈ l.argmin f := Option.mem_def.mpr h
    exact ⟨m, (rayonMinBy_eq_argmin f l).trans h, List.argmin_mem hm,
      fun a ha => List.le_of_mem_argmin ha hm,
      fun a ha hle => List.index_of_argmin hm ha hle⟩

/-! ### Claim theorems: frame selection -/

/-- C1: for every seeded selector (MSE or hash) and non-empty window,
`pick_best` returns a frame whose distance to the reference is minimal over
the window, and on ties the earliest-indexed minimal frame is returned. -/
theorem seeded_pick_best_minimal :
    ∀ (prev : List Nat) (w : List Frame), w ≠ [] →
      (∃ fsel, msePickBest (some prev) w = .ok fsel (some (getLumaData fsel.data)) ∧
        fsel ∈ w ∧
        (∀ g ∈ w, mse (getLumaData fsel.data) prev ≤ mse (getLumaData g.data) prev) ∧
        (∀ g ∈ w, mse (getLumaData g.data) prev ≤ mse (getLumaData fsel.data) prev →
          w.indexOf fsel ≤ w.indexOf g))
      ∧ ∀ (H : Type) (hashFn : Frame → H) (dist : H → H → Nat) (lh : H),
          (∀ g ∈ w, validSize g) →
          ∃ fsel, hashPickBest H hashFn dist (some lh) w = .ok fsel (some (hashFn fsel)) ∧
            fsel ∈ w ∧
            (∀ g ∈ w, dist lh (hashFn fsel) ≤ dist lh (hashFn g)) ∧
            (∀ g ∈ w, dist lh (hashFn g) ≤ dist lh (hashFn fsel) →
              w.indexOf fsel ≤ w.indexOf g) := by
  intro prev w hw
  constructor
  · obtain ⟨m, hmin, hmem, hle, hidx⟩ :=
      rayonMinBy_spec (fun fr => mse (getLumaData fr.data) prev) w hw
    refine ⟨m, ?_, hmem, hle, hidx⟩
    simp only [msePickBest, hmin]
  · intro H hashFn dist lh hvalid
    obtain ⟨m, hmin, hmem, hle, hidx⟩ :=
      rayonMinBy_spec (fun fr => dist lh (hashFn fr)) w hw
    refine ⟨m, ?_, hmem, hle, hidx⟩
    have hall : w.all (fun f => validSize f) = true :=
      List.all_eq_true.mpr (fun f hf => hvalid f hf)
    simp only [hashPickBest, hall, if_true, hmin]

/-- Witness for `seeded_pick_best_minimal` at a concrete seeded state and
two-frame window (the second frame is strictly closer to the reference). -/
theorem seeded_pick_best_minimal_witness :
    (∃ fsel, msePickBest (some [0]) [⟨[5, 0, 0], 1, 1⟩, ⟨[1, 0, 0], 1, 1⟩]
        = .ok fsel (some (getLumaData fsel.data)) ∧
      fsel ∈ [Frame.mk [5, 0, 0] 1 1, Frame.mk [1, 0, 0] 1 1] ∧
      (∀ g ∈ [Frame.mk [5, 0, 0] 1 1, Frame.mk [1, 0, 0] 1 1],
        mse (getLumaData fsel.data) [0] ≤ mse (getLumaData g.data) [0]) ∧
      (∀ g ∈ [Frame.mk [5, 0, 0] 1 1, Frame.mk [1, 0, 0] 1 1],
        mse (getLumaData g.data) [0] ≤ mse (getLumaData fsel.data) [0] →
          [Frame.mk [5, 0, 0] 1 1, Frame.mk [1, 0, 0] 1 1].indexOf fsel
            ≤ [Frame.mk [5, 0, 0] 1 1, Frame.mk [1, 0, 0] 1 1].indexOf g))
    ∧ ∃ fsel, hashPickBest Nat (fun f => f.data.headD 0) (fun a b => max a b - min a b)
          (some 0) [⟨[5, 0, 0], 1, 1⟩, ⟨[1, 0, 0], 1, 1⟩]
        = .ok fsel (some (fsel.data.headD 0)) ∧
      fsel ∈ [Frame.mk [5, 0, 0] 1 1, Frame.mk [1, 0, 0] 1 1] ∧
      (∀ g ∈ [Frame.mk [5, 0, 0] 1 1, Frame.mk [1, 0, 0] 1 1],
        max 0 (fsel.data.headD 0) - min 0 (fsel.data.headD 0)
          ≤ max 0 (g.data.headD 0) - min 0 (g.data.headD 0)) ∧
      (∀ g ∈ [Frame.mk [5, 0, 0] 1 1, Frame.mk [1, 0, 0] 1 1],
        max 0 (g.data.headD 0) - min 0 (g.data.headD 0)
            ≤ max 0 (fsel.data.headD 0) - min 0 (fsel.data.headD 0) →
          [Frame.mk [5, 0, 0] 1 1, Frame.mk [1, 0, 0] 1 1].indexOf fsel
            ≤ [Frame.mk [5, 0, 0] 1 1, Frame.mk [1, 0, 0] 1 1].indexOf g) :=
  ⟨(seeded_pick_best_minimal [0] [⟨[5, 0, 0], 1, 1⟩, ⟨[1, 0, 0], 1, 1⟩]
      (by decide)).1,
    (seeded_pick_best_minimal [0] [⟨[5, 0, 0], 1, 1⟩, ⟨[1, 0, 0], 1, 1⟩]
      (by decide)).2 Nat (fun f => f.data.headD 0) (fun a b => max a b - min a b) 0
      (by decide)⟩

/-- C3: in the unseeded state, `pick_best` on a non-empty window returns the
window's first frame and seeds the reference state with that frame's summary
(its luma data for MSE, its hash for the hash selectors). -/
theorem unseeded_pick_best_first :
    ∀ (f : Frame) (rest : List Frame),
      msePickBest none (f :: rest) = .ok f (some (getLumaData f.data))
      ∧ ∀ (H : Type) (hashFn : Frame → H) (dist : H → H → Nat),
          validSize f = true →
          hashPickBest H hashFn dist none (f :: rest) = .ok f (some (hashFn f)) := by
  intro f rest
  refine ⟨rfl, ?_⟩
  intro H hashFn dist hvf
  simp only [hashPickBest, hashFrameChecked, hvf, if_true]

/-- Witness for `unseeded_pick_best_first` at a concrete one-pixel frame. -/
theorem unseeded_pick_best_first_witness :
    msePickBest none [⟨[7, 1, 2], 1, 1⟩] = .ok ⟨[7, 1, 2], 1, 1⟩ (some (getLumaData [7, 1, 2]))
    ∧ hashPickBest Nat (fun f => f.data.length) (fun a b => max a b - min a b)
        none [⟨[7, 1, 2], 1, 1⟩]
      = .ok ⟨[7, 1, 2], 1, 1⟩ (some 3) :=
  ⟨(unseeded_pick_best_first ⟨[7, 1, 2], 1, 1⟩ []).1,
    (unseeded_pick_best_first ⟨[7, 1, 2], 1, 1⟩ []).2 Nat
      (fun f => f.data.length) (fun a b => max a b - min a b) (by decide)⟩

/-- C2 counterexample: the MSE selector in the unseeded state panics on an
empty window (`window.remove(0)` on an empty `Vec`), so `pick_best` on an
empty window does not return `EmptyInput` for every variant and state. -/
theorem empty_window_unseeded_panics :
    msePickBest none [] = .panicked := rfl

/-- C2 as amended: `pick_best` on an empty window returns `EmptyInput` for
the no-op selector always and for the MSE and hash selectors in the seeded
state; in the unseeded state the MSE and hash selectors panic instead. -/
theorem empty_window_behaviour :
    noopPickBest [] = .emptyInput ()
    ∧ (∀ prev : List Nat, msePickBest (some prev) [] = .emptyInput (some prev))
    ∧ (∀ (H : Type) (hashFn : Frame → H) (dist : H → H → Nat) (h : H),
        hashPickBest H hashFn dist (some h) [] = .emptyInput (some h))
    ∧ msePickBest none [] = .panicked
    ∧ ∀ (H : Type) (hashFn : Frame → H) (dist : H → H → Nat),
        hashPickBest H hashFn dist none [] = .panicked :=
  ⟨rfl, fun _ => rfl, fun _ _ _ _ => rfl, rfl, fun _ _ _ => rfl⟩

/-- C9: `get_frame_selector` returns the matching selector for the five
implemented modes and fails (panics) at construction time for `SSIM`. -/
theorem get_frame_selector_modes :
    getFrameSelector .Noop = .ok .noopSelector
    ∧ getFrameSelector .Blockhash = .ok (.hashSelector .Blockhash)
    ∧ getFrameSelector .GradientHash = .ok (.hashSelector .GradientHash)
    ∧ getFrameSelector .MeanHash = .ok (.hashSelector .MeanHash)
    ∧ getFrameSelector .MSE = .ok .mseSelector
    ∧ getFrameSelector .SSIM = .error (.unsupportedMode .SSIM) :=
  ⟨rfl, rfl, rfl, rfl, rfl, rfl⟩

/-! ### Helper lemmas about the saturating mse arithmetic -/

theorem foldl_satAdd_eq_sum :
    ∀ (l : List Nat) (acc : Nat), acc + l.sum ≤ u32Max →
      l.foldl satAdd acc = acc + l.sum
  | [], acc, _ => by simp
  | x :: l, acc, h => by
    rw [List.sum_cons] at h
    have hx : satAdd acc x = acc + x := by
      unfold satAdd
      exact min_eq_left (by omega)
    rw [List.foldl_cons, hx, foldl_satAdd_eq_sum l (acc + x) (by omega),
      List.sum_cons]
    omega

theorem foldl_satAdd_replicate :
    ∀ (n : Nat) (c acc : Nat), acc ≤ u32Max →
      (List.replicate n c).foldl satAdd acc = min (acc + n * c) u32Max
  | 0, c, acc, h => by
    simp [min_eq_left h]
  | n + 1, c, acc, h => by
    rw [List.replicate_succ, List.foldl_cons,
      foldl_satAdd_replicate n c (satAdd acc c) (min_le_right _ _)]
    unfold satAdd
    rw [Nat.succ_mul]
    generalize n * c = k
    omega

theorem sqDiffSat_comm (a b : Nat) : sqDiffSat a b = sqDiffSat b a := by
  unfold sqDiffSat
  have : ((a : Int) - b).natAbs = ((b : Int) - a).natAbs := by omega
  rw [this]

theorem sqClampList_comm :
    ∀ a b : List Nat,
      (a.zip b).map (fun p => sqDiffSat p.1 p.2)
        = (b.zip a).map (fun p => sqDiffSat p.1 p.2)
  | [], l => by cases l <;> rfl
  | _ :: _, [] => rfl
  | x :: a, y :: b => by
    simp only [List.zip_cons_cons, List.map_cons]
    rw [sqClampList_comm a b, sqDiffSat_comm]

/-! ### Claim theorems: mse arithmetic -/

/-- C4 counterexample: at `a = [255]`, `b = [0]` the saturating
`i16::saturating_pow(2)` clamps `255² = 65025` to `i16::MAX = 32767`, so
`mse` does not equal the exact average of squared differences. -/
theorem mse_saturation_counterexample :
    mse [255] [0] = 32767 ∧ (65025 : ℚ) / 1 = 65025 ∧ mse [255] [0] ≠ 65025 := by
  have h : mse [255] [0] = 32767 := by
    unfold mse mseSum
    norm_num [sqDiffSat, satAdd, u32Max]
  refine ⟨h, by norm_num, ?_⟩
  rw [h]
  norm_num

/-- C4 as amended: the luma summary is every 3rd byte of the buffer, and
`mse` equals the exact average of the clamped squared differences; the
clamping is invisible exactly when every per-element delta is at most 181
(so its square stays below `i16::MAX`) and the exact sum stays below
`u32::MAX` (so the saturating accumulation is exact); for `|delta| ≥ 182`
(e.g. 255 vs 0) the computed value is strictly below the true average. -/
theorem mse_exact_average :
    (∀ data : List Nat, (getLumaData data).length = data.length / 3
      ∧ ∀ i, i < data.length / 3 → (getLumaData data).get? i = data.get? (i * 3))
    ∧ ∀ a b : List Nat, a.length = b.length → a.length < 4294967296 →
        (∀ p ∈ a.zip b, ((p.1 : Int) - (p.2 : Int)).natAbs ≤ 181) →
        ((a.zip b).map (fun p => ((p.1 : Int) - (p.2 : Int)).natAbs ^ 2)).sum ≤ u32Max →
        mse a b
          = (((a.zip b).map (fun p => ((p.1 : Int) - (p.2 : Int)).natAbs ^ 2)).sum : ℚ)
            / (a.length : ℚ) := by
  constructor
  · intro data
    constructor
    · simp [getLumaData]
    · intro i hi
      have hlt : i * 3 < data.length := by omega
      simp only [getLumaData, List.get?_eq_getElem?, List.getElem?_map,
        List.getElem?_range hi, Option.map_some']
      rw [List.getElem?_eq_getElem hlt, List.getD_eq_getElem data 0 hlt]
  · intro a b _hlen hsmall hbound hsum
    have hmap : (a.zip b).map (fun p => sqDiffSat p.1 p.2)
        = (a.zip b).map (fun p => ((p.1 : Int) - (p.2 : Int)).natAbs ^ 2) := by
      apply List.map_congr_left
      intro p hp
      unfold sqDiffSat
      have h181 := hbound p hp
      have hsq := Nat.pow_le_pow_left h181 2
      exact min_eq_left (le_trans hsq (by norm_num))
    unfold mse mseSum
    rw [hmap, foldl_satAdd_eq_sum _ 0 (by omega), Nat.mod_eq_of_lt hsmall]
    push_cast
    ring_nf

/-- Witness for `mse_exact_average` at `a = [3, 10]`, `b = [1, 4]`:
the computed value is the exact average `(4 + 36) / 2 = 20`. -/
theorem mse_exact_average_witness :
    ((getLumaData [7, 1, 2, 9]).length = 1
      ∧ ∀ i, i < 1 → (getLumaData [7, 1, 2, 9]).get? i = [7, 1, 2, 9].get? (i * 3))
    ∧ mse [3, 10] [1, 4]
        = ((([3, 10].zip [1, 4]).map
            (fun p => ((p.1 : Int) - (p.2 : Int)).natAbs ^ 2)).sum : ℚ) / 2 :=
  ⟨⟨(mse_exact_average.1 [7, 1, 2, 9]).1, (mse_exact_average.1 [7, 1, 2, 9]).2⟩,
    mse_exact_average.2 [3, 10] [1, 4] rfl (by norm_num) (by decide) (by decide)⟩

/-- C6 counterexample: with 65539 elements of maximal delta the doubled
buffers saturate the `u32` accumulator, so doubling both buffers changes
the reported per-pixel average (32767 versus 4294967295 / 131078). -/
theorem mse_doubling_counterexample :
    mse (List.replicate 65539 255) (List.replicate 65539 0) = 32767
    ∧ mse (List.replicate 65539 255 ++ List.replicate 65539 255)
        (List.replicate 65539 0 ++ List.replicate 65539 0)
      = (4294967295 : ℚ) / 131078
    ∧ mse (List.replicate 65539 255 ++ List.replicate 65539 255)
        (List.replicate 65539 0 ++ List.replicate 65539 0)
      ≠ mse (List.replicate 65539 255) (List.replicate 65539 0) := by
  have hterm : sqDiffSat 255 0 = 32767 := by decide
  have hval : ∀ n : Nat,
      mseSum (List.replicate n 255) (List.replicate n 0) = min (n * 32767) u32Max := by
    intro n
    unfold mseSum
    rw [List.zip_replicate', List.map_replicate, hterm,
      foldl_satAdd_replicate n 32767 0 (by unfold u32Max; omega)]
    omega
  have h1 : mse (List.replicate 65539 255) (List.replicate 65539 0) = 32767 := by
    unfold mse
    rw [hval 65539]
    norm_num [u32Max]
  have h2 : mse (List.replicate 65539 255 ++ List.replicate 65539 255)
      (List.replicate 65539 0 ++ List.replicate 65539 0) = (4294967295 : ℚ) / 131078 := by
    unfold mse
    rw [← List.replicate_add, ← List.replicate_add, hval 131078]
    norm_num [u32Max]
  refine ⟨h1, h2, ?_⟩
  rw [h1, h2]
  norm_num

/-- C6 as amended: for equal-length byte sequences `mse` is symmetric, and
doubling both buffers preserves the reported average provided the doubled
exact sum does not saturate the `u32` accumulator and the doubled length
does not wrap the `u32` cast. -/
theorem mse_symm_and_doubling :
    ∀ a b : List Nat, a.length = b.length →
      mse a b = mse b a
      ∧ (2 * ((a.zip b).map (fun p => sqDiffSat p.1 p.2)).sum ≤ u32Max →
          2 * a.length < 4294967296 →
          mse (a ++ a) (b ++ b) = mse a b) := by
  intro a b hlen
  constructor
  · unfold mse mseSum
    rw [sqClampList_comm, hlen]
  · intro hsum hsmall
    have hzip : (a ++ a).zip (b ++ b) = a.zip b ++ a.zip b := List.zip_append hlen
    have hS : mseSum a b = ((a.zip b).map (fun p => sqDiffSat p.1 p.2)).sum := by
      unfold mseSum
      rw [foldl_satAdd_eq_sum ((a.zip b).map (fun p => sqDiffSat p.1 p.2)) 0 (by omega)]
      omega
    have hSS : mseSum (a ++ a) (b ++ b)
        = 2 * ((a.zip b).map (fun p => sqDiffSat p.1 p.2)).sum := by
      unfold mseSum
      rw [hzip, List.map_append,
        foldl_satAdd_eq_sum ((a.zip b).map (fun p => sqDiffSat p.1 p.2)
          ++ (a.zip b).map (fun p => sqDiffSat p.1 p.2)) 0
          (by rw [List.sum_append]; omega)]
      rw [List.sum_append]
      omega
    unfold mse
    rw [hS, hSS, List.length_append,
      Nat.mod_eq_of_lt (by omega : a.length + a.length < 4294967296),
      Nat.mod_eq_of_lt (by omega : a.length < 4294967296)]
    have : ((a.length + a.length : Nat) : ℚ) = 2 * (a.length : ℚ) := by
      push_cast
      ring
    rw [this]
    push_cast
    rw [mul_div_mul_left _ _ (by norm_num : (2 : ℚ) ≠ 0)]

/-- Witness for `mse_symm_and_doubling` at `a = [3]`, `b = [1]`:
symmetry and the doubling identity `mse [3,3] [1,1] = mse [3] [1]`. -/
theorem mse_symm_and_doubling_witness :
    mse [3] [1] = mse [1] [3] ∧ mse ([3] ++ [3]) ([1] ++ [1]) = mse [3] [1] :=
  ⟨(mse_symm_and_doubling [3] [1] rfl).1,
    (mse_symm_and_doubling [3] [1] rfl).2 (by decide) (by decide)⟩

/-- C5: on well-sized frame buffers the summary and distance computations
inside `pick_best` never panic: the luma extraction's indexing is always in
bounds, `hash_frame`'s buffer conversion succeeds whenever the buffer length
matches the declared `3 × width × height` layout, and every `pick_best` path
other than the unseeded-empty-window one is panic-free (for the hash
selectors, provided every frame in the window is well-sized). -/
theorem summarize_never_panics :
    (∀ data : List Nat, getLumaDataChecked data = some (getLumaData data))
    ∧ (∀ (H : Type) (hashFn : Frame → H) (f : Frame), validSize f = true →
        hashFrameChecked H hashFn f = some (hashFn f))
    ∧ (∀ (prev : List Nat) (w : List Frame), msePickBest (some prev) w ≠ .panicked)
    ∧ (∀ (f : Frame) (rest : List Frame), msePickBest none (f :: rest) ≠ .panicked)
    ∧ (∀ (H : Type) (hashFn : Frame → H) (dist : H → H → Nat) (lh : H)
        (w : List Frame), (∀ g ∈ w, validSize g) →
        hashPickBest H hashFn dist (some lh) w ≠ .panicked)
    ∧ (∀ (H : Type) (hashFn : Frame → H) (dist : H → H → Nat)
        (f : Frame) (rest : List Frame), validSize f = true →
        hashPickBest H hashFn dist none (f :: rest) ≠ .panicked)
    ∧ ∀ w : List Frame, noopPickBest w ≠ .panicked := by
  refine ⟨?_, ?_, ?_, ?_, ?_, ?_, ?_⟩
  · intro data
    unfold getLumaDataChecked getLumaData
    have aux : ∀ (ns : List Nat), (∀ i ∈ ns, i * 3 < data.length) →
        ns.mapM (fun i => data.get? (i * 3))
          = some (ns.map (fun i => data.getD (i * 3) 0)) := by
      intro ns
      induction ns with
      | nil => intro _; rfl
      | cons n ns ih =>
        intro h
        have hn : n * 3 < data.length := h n (List.mem_cons_self n ns)
        have hget : data.get? (n * 3) = some (data.getD (n * 3) 0) := by
          rw [List.get?_eq_getElem?, List.getElem?_eq_getElem hn,
            List.getD_eq_getElem data 0 hn]
        rw [List.mapM_cons, hget, ih (fun i hi => h i (List.mem_cons_of_mem n hi)),
          List.map_cons]
        rfl
    exact aux (List.range (data.length / 3)) (by
      intro i hi
      have := List.mem_range.mp hi
      omega)
  · intro H hashFn f hv
    unfold hashFrameChecked
    rw [hv]
    rfl
  · intro prev w
    unfold msePickBest
    cases h : rayonMinBy (fun fr => mse (getLumaData fr.data) prev) w <;> simp [h]
  · intro f rest
    unfold msePickBest
    simp
  · intro H hashFn dist lh w hv
    have hall : w.all (fun f => validSize f) = true :=
      List.all_eq_true.mpr (fun f hf => hv f hf)
    unfold hashPickBest
    rw [hall]
    simp only [if_true]
    cases h : rayonMinBy (fun fr => dist lh (hashFn fr)) w <;> simp [h]
  · intro H hashFn dist f rest hv
    simp [hashPickBest, hashFrameChecked, hv]
  · intro w
    cases w <;> simp [noopPickBest]

/-- Witness for `summarize_never_panics` at concrete well-sized frames. -/
theorem summarize_never_panics_witness :
    getLumaDataChecked [9, 8, 7, 6, 5, 4] = some (getLumaData [9, 8, 7, 6, 5, 4])
    ∧ hashFrameChecked Nat (fun f => f.width) ⟨[1, 2, 3], 1, 1⟩ = some 1
    ∧ msePickBest (some [4]) [⟨[1, 2, 3], 1, 1⟩] ≠ .panicked
    ∧ hashPickBest Nat (fun f => f.width) (fun a b => a + b) (some 5)
        [⟨[1, 2, 3], 1, 1⟩] ≠ .panicked :=
  ⟨summarize_never_panics.1 [9, 8, 7, 6, 5, 4],
    summarize_never_panics.2.1 Nat (fun f => f.width) ⟨[1, 2, 3], 1, 1⟩ (by decide),
    summarize_never_panics.2.2.1 [4] [⟨[1, 2, 3], 1, 1⟩],
    summarize_never_panics.2.2.2.2.1 Nat (fun f => f.width) (fun a b => a + b) 5
      [⟨[1, 2, 3], 1, 1⟩] (by decide)⟩

/-- C10: `ComparisonMode` parsing is ASCII-case-insensitive and round-trips
with display: a string whose ASCII lowercasing agrees with a mode name's
lowercasing parses to that mode, and a string matching no mode name (in any
ASCII case variant) yields `ParseComparisonModeError`. -/
theorem comparison_mode_parse_roundtrip :
    ∀ s : List Char,
      (∀ m, s.map asciiLower = (modeName m).map asciiLower →
        comparisonModeFromStr s = .ok m)
      ∧ ((∀ m, s.map asciiLower ≠ (modeName m).map asciiLower) →
        comparisonModeFromStr s = .error .parseError) := by
  intro s
  have e1 : (modeName .Noop).map asciiLower = ['n', 'o', 'o', 'p'] := by decide
  have e2 : (modeName .Blockhash).map asciiLower
      = ['b', 'l', 'o', 'c', 'k', 'h', 'a', 's', 'h'] := by decide
  have e3 : (modeName .GradientHash).map asciiLower
      = ['g', 'r', 'a', 'd', 'i', 'e', 'n', 't', 'h', 'a', 's', 'h'] := by decide
  have e4 : (modeName .MeanHash).map asciiLower
      = ['m', 'e', 'a', 'n', 'h', 'a', 's', 'h'] := by decide
  have e5 : (modeName .MSE).map asciiLower = ['m', 's', 'e'] := by decide
  have e6 : (modeName .SSIM).map asciiLower = ['s', 's', 'i', 'm'] := by decide
  constructor
  · intro m h
    cases m
    · rw [e1] at h
      unfold comparisonModeFromStr
      rw [h]
      rfl
    · rw [e2] at h
      unfold comparisonModeFromStr
      rw [h]
      rfl
    · rw [e3] at h
      unfold comparisonModeFromStr
      rw [h]
      rfl
    · rw [e4] at h
      unfold comparisonModeFromStr
      rw [h]
      rfl
    · rw [e5] at h
      unfold comparisonModeFromStr
      rw [h]
      rfl
    · rw [e6] at h
      unfold comparisonModeFromStr
      rw [h]
      rfl
  · intro hne
    have h1 : s.map asciiLower ≠ ['n', 'o', 'o', 'p'] := e1 ▸ hne .Noop
    have h2 : s.map asciiLower ≠ ['b', 'l', 'o', 'c', 'k', 'h', 'a', 's', 'h'] :=
      e2 ▸ hne .Blockhash
    have h3 : s.map asciiLower
        ≠ ['g', 'r', 'a', 'd', 'i', 'e', 'n', 't', 'h', 'a', 's', 'h'] :=
      e3 ▸ hne .GradientHash
    have h4 : s.map asciiLower ≠ ['m', 'e', 'a', 'n', 'h', 'a', 's', 'h'] :=
      e4 ▸ hne .MeanHash
    have h5 : s.map asciiLower ≠ ['m', 's', 'e'] := e5 ▸ hne .MSE
    have h6 : s.map asciiLower ≠ ['s', 's', 'i', 'm'] := e6 ▸ hne .SSIM
    unfold comparisonModeFromStr
    rw [if_neg h1, if_neg h2, if_neg h3, if_neg h4, if_neg h5, if_neg h6]

/-- Witness for `comparison_mode_parse_roundtrip`: the mixed-case string
`mSe` parses to `MSE`, the lowercase `gradienthash` parses to
`GradientHash`, and `xy` matches no mode and fails. -/
theorem comparison_mode_parse_roundtrip_witness :
    comparisonModeFromStr ['m', 'S', 'e'] = .ok .MSE
    ∧ comparisonModeFromStr ['g', 'r', 'a', 'd', 'i', 'e', 'n', 't', 'H', 'a', 's', 'h']
      = .ok .GradientHash
    ∧ comparisonModeFromStr ['x', 'y'] = .error .parseError :=
  ⟨(comparison_mode_parse_roundtrip ['m', 'S', 'e']).1 .MSE (by decide),
    (comparison_mode_parse_roundtrip
      ['g', 'r', 'a', 'd', 'i', 'e', 'n', 't', 'H', 'a', 's', 'h']).1 .GradientHash
      (by decide),
    (comparison_mode_parse_roundtrip ['x', 'y']).2
      (by intro m; cases m <;> decide)⟩

/-! ### Helper lemmas about window acquisition -/

theorem procNextWindowAux_step (req : Req) :
    ∀ (ps : List Packet) (skip : Nat) (acc : List Frame),
      acc.length < req.windowSize →
      procNextWindowAux req ps skip acc
        = match decoderNextFrameAux req skip ps with
          | (.ok f, rest) => procNextWindowAux req rest req.frameSkip (f :: acc)
          | (.error .eof, rest) => (.ok acc.reverse, rest)
          | (.error (.other e), rest) => (.error (.other e), rest) := by
  intro ps
  induction ps with
  | nil =>
    intro skip acc h
    rw [procNextWindowAux, decoderNextFrameAux]
  | cons p rest ih =>
    intro skip acc h
    rw [procNextWindowAux, decoderNextFrameAux]
    rw [if_neg (by omega)]
    by_cases h1 : p.stream ≠ req.videoStreamId
    · rw [if_pos h1, if_pos h1]
      exact ih skip acc h
    · rw [if_neg h1, if_neg h1]
      by_cases h2 : req.keyFramesOnly ∧ ¬ p.isKey
      · rw [if_pos h2, if_pos h2]
        exact ih skip acc h
      · rw [if_neg h2, if_neg h2]
        by_cases h3 : 0 < skip
        · rw [if_pos h3, if_pos h3]
          exact ih (skip - 1) acc h
        · rw [if_neg h3, if_neg h3]
          cases hd : p.decode with
          | fail e => rfl
          | empty => exact ih skip acc h
          | ok raw =>
            cases hs : p.scale with
            | fail e => rfl
            | ok f => rfl

theorem decoderNextWindowAux_eq_proc (req : Req) :
    ∀ (n : Nat) (ps : List Packet) (acc : List Frame),
      acc.length + n = req.windowSize →
      decoderNextWindowAux req n ps acc
        = procNextWindowAux req ps req.frameSkip acc := by
  intro n
  induction n with
  | zero =>
    intro ps acc h
    cases ps with
    | nil => rw [decoderNextWindowAux, procNextWindowAux]
    | cons p rest =>
      rw [decoderNextWindowAux, procNextWindowAux]
      rw [if_pos (by omega)]
  | succ n ih =>
    intro ps acc h
    rw [decoderNextWindowAux,
      procNextWindowAux_step req ps req.frameSkip acc (by omega)]
    show (match decoderNextFrame req ps with
        | (.ok f, rest) => decoderNextWindowAux req n rest (f :: acc)
        | (.error .eof, rest) => (.ok acc.reverse, rest)
        | (.error (.other e), rest) => (.error (.other e), rest)) = _
    rw [decoderNextFrame]
    cases hr : decoderNextFrameAux req req.frameSkip ps with
    | mk r rest =>
      cases r with
      | ok f => exact ih rest (f :: acc) (by simp only [List.length_cons]; omega)
      | error e =>
        cases e with
        | eof => rfl
        | other c => rfl

/-! ### Claim theorems: window acquisition equivalence -/

/-- C7 counterexample: on the empty packet stream (with window size 1)
`Decoder::next_window` signals end-of-stream with `Err(Eof)` while
`TimelapseContext::next_window` returns the zero-length window as `Ok`,
so the two implementations are not equivalent as claimed. -/
theorem next_window_empty_counterexample :
    decoderNextWindow ⟨1, 0, false, 0⟩ [] = (.error .eof, [])
    ∧ procNextWindow ⟨1, 0, false, 0⟩ [] = (.ok [], [])
    ∧ decoderNextWindow ⟨1, 0, false, 0⟩ []
      ≠ procNextWindow ⟨1, 0, false, 0⟩ [] :=
  ⟨rfl, rfl, fun h => Except.noConfusion (congrArg Prod.fst h)⟩

/-- C7 as amended: the two window-acquisition implementations admit exactly
the same frames into the same windows and leave the same packets unread —
they agree on every non-empty window, every short end-of-stream window and
every error — but on a zero-length window `Decoder::next_window` returns
`Err(Eof)` while `TimelapseContext::next_window` returns `Ok` with the empty
window (its caller converts that to `Eof` only in the seeded state). -/
theorem next_window_equivalence :
    ∀ (req : Req) (ps : List Packet),
      decoderNextWindow req ps
        = match procNextWindow req ps with
          | (.ok [], rest) => (.error .eof, rest)
          | r => r := by
  intro req ps
  rw [decoderNextWindow,
    decoderNextWindowAux_eq_proc req req.windowSize ps [] (by simp)]
  rw [procNextWindow]
  cases hr : procNextWindowAux req ps req.frameSkip [] with
  | mk r rest =>
    cases r with
    | ok w => cases w <;> rfl
    | error e => rfl

theorem admitPattern_cap_zero (k : Nat) :
    ∀ (l : List Frame) (s : Nat), admitPattern k l s 0 = []
  | [], _ => rfl
  | f :: fs, s => by
    rw [admitPattern]
    simp

theorem admitPattern_get (k : Nat) :
    ∀ (l : List Frame) (s cap j : Nat), s ≤ k →
      (admitPattern k l s cap).get? j
        = if j < cap then l.get? (s + (k + 1) * j) else none := by
  intro l
  induction l with
  | nil =>
    intro s cap j _
    rw [admitPattern]
    simp
  | cons f fs ih =>
    intro s cap j hs
    cases cap with
    | zero =>
      rw [admitPattern]
      simp
    | succ c =>
      cases s with
      | zero =>
        rw [admitPattern]
        rw [if_neg (by omega), if_neg (by omega)]
        cases j with
        | zero => simp
        | succ j =>
          rw [List.get?_cons_succ, Nat.add_sub_cancel, ih k c j (le_refl k)]
          have harith : 0 + (k + 1) * (j + 1) = (k + (k + 1) * j) + 1 := by ring
          rw [harith]
          by_cases hj : j < c
          · rw [if_pos hj, if_pos (by omega), List.get?_cons_succ]
          · rw [if_neg hj, if_neg (by omega)]
      | succ t =>
        rw [admitPattern]
        rw [if_neg (by omega), if_pos (by omega)]
        have hstep : t + 1 - 1 = t := rfl
        rw [hstep, ih t (c + 1) j (by omega)]
        have harith : t + 1 + (k + 1) * j = (t + (k + 1) * j) + 1 := by ring
        rw [harith]
        by_cases hj : j < c + 1
        · rw [if_pos hj, if_pos hj, List.get?_cons_succ]
        · rw [if_neg hj, if_neg hj]

theorem procNextWindowAux_clean (req : Req) :
    ∀ (ps : List Packet) (skip : Nat) (acc : List Frame),
      (∀ p ∈ ps, cleanPacket p = true) →
      (procNextWindowAux req ps skip acc).1
        = .ok (acc.reverse ++ admitPattern req.frameSkip
            ((ps.filter (eligible req)).map scaledFrame) skip
            (req.windowSize - acc.length)) := by
  intro ps
  induction ps with
  | nil =>
    intro skip acc _
    rw [procNextWindowAux]
    simp [admitPattern]
  | cons p rest ih =>
    intro skip acc hclean
    have hcr : ∀ q ∈ rest, cleanPacket q = true :=
      fun q hq => hclean q (List.mem_cons_of_mem p hq)
    have hcp : cleanPacket p = true := hclean p (List.mem_cons_self p rest)
    rw [procNextWindowAux]
    by_cases hfull : req.windowSize ≤ acc.length
    · rw [if_pos hfull]
      have hcap : req.windowSize - acc.length = 0 := by omega
      rw [hcap, admitPattern_cap_zero]
      simp
    · rw [if_neg hfull]
      by_cases h1 : p.stream ≠ req.videoStreamId
      · rw [if_pos h1]
        have helig : eligible req p = false := by
          have hb : (p.stream == req.videoStreamId) = false :=
            beq_eq_false_iff_ne.mpr h1
          simp [eligible, hb]
        have helig' : ¬ (eligible req p = true) := by simp [helig]
        rw [List.filter_cons, if_neg helig']
        exact ih skip acc hcr
      · rw [if_neg h1]
        push_neg at h1
        by_cases h2 : req.keyFramesOnly ∧ ¬ p.isKey
        · rw [if_pos h2]
          obtain ⟨hk, hnk⟩ := h2
          have helig : eligible req p = false := by
            have hb : p.isKey = false := by
              cases hkey : p.isKey
              · rfl
              · exact absurd hkey hnk
            simp [eligible, hk, hb]
          have helig' : ¬ (eligible req p = true) := by simp [helig]
          rw [List.filter_cons, if_neg helig']
          exact ih skip acc hcr
        · have helig : eligible req p = true := by
            have hb : (p.stream == req.videoStreamId) = true := beq_iff_eq.mpr h1
            cases hkey : req.keyFramesOnly
            · simp [eligible, hb, hkey]
            · have hisKey : p.isKey = true := by
                by_contra hcon
                exact h2 ⟨hkey, by simp [Bool.not_eq_true] at hcon; simp [hcon]⟩
              simp [eligible, hb, hkey, hisKey]
          rw [if_neg h2, List.filter_cons, if_pos helig, List.map_cons]
          by_cases h3 : 0 < skip
          · rw [if_pos h3, ih (skip - 1) acc hcr]
            rw [admitPattern, if_neg (by omega), if_pos h3]
          · rw [if_neg h3]
            have hskip : skip = 0 := by omega
            subst hskip
            cases hd : p.decode with
            | fail e => simp [cleanPacket, hd] at hcp
            | empty => simp [cleanPacket, hd] at hcp
            | ok raw =>
              cases hsc : p.scale with
              | fail e => simp [cleanPacket, hd, hsc] at hcp
              | ok f =>
                have hsf : scaledFrame p = f := by
                  simp [scaledFrame, hsc]
                rw [ih req.frameSkip (f :: acc) hcr, hsf]
                rw [admitPattern, if_neg (by omega), if_neg (by omega)]
                have hcap : req.windowSize - acc.length - 1
                    = req.windowSize - (f :: acc).length := by
                  simp only [List.length_cons]
                  omega
                rw [List.reverse_cons, List.append_assoc, List.singleton_append, hcap]

/-! ### Claim theorems: window admission pattern -/

/-- C8: window accumulation is greedy up to `window_size` frames, only
packets passing the stream and key-frame filters are ever admitted, and with
skip count `frame_skip` exactly every `(frame_skip + 1)`-th eligible frame is
admitted: the `j`-th window slot holds the eligible frame at index
`frame_skip + (frame_skip + 1) * j` (for `frame_skip = 2`, every 3rd one),
provided every packet decodes and scales cleanly. -/
theorem window_admits_every_kth :
    ∀ (req : Req) (ps : List Packet),
      (∀ p ∈ ps, cleanPacket p = true) →
      ∃ w rest, procNextWindow req ps = (.ok w, rest)
        ∧ ∀ j : Nat, w.get? j
            = if j < req.windowSize then
                ((ps.filter (eligible req)).map scaledFrame).get?
                  (req.frameSkip + (req.frameSkip + 1) * j)
              else none := by
  intro req ps hclean
  have h1 := procNextWindowAux_clean req ps req.frameSkip [] hclean
  simp only [List.reverse_nil, List.nil_append, List.length_nil, Nat.sub_zero] at h1
  refine ⟨admitPattern req.frameSkip ((ps.filter (eligible req)).map scaledFrame)
      req.frameSkip req.windowSize,
    (procNextWindowAux req ps req.frameSkip []).2, ?_, ?_⟩
  · rw [procNextWindow]
    exact Prod.ext h1 rfl
  · intro j
    rw [admitPattern_get req.frameSkip _ req.frameSkip req.windowSize j (le_refl _)]

/-- Witness for `window_admits_every_kth`: seven clean eligible packets,
window size 2 and `frame_skip = 2`; the window holds the eligible frames at
indices 2 and 5 (every 3rd). -/
theorem window_admits_every_kth_witness :
    ∃ w rest,
      procNextWindow ⟨2, 2, false, 0⟩
          [⟨0, true, .ok ⟨[], 0, 0⟩, .ok ⟨[0], 1, 1⟩⟩,
           ⟨0, true, .ok ⟨[], 0, 0⟩, .ok ⟨[1], 1, 1⟩⟩,
           ⟨0, true, .ok ⟨[], 0, 0⟩, .ok ⟨[2], 1, 1⟩⟩,
           ⟨0, true, .ok ⟨[], 0, 0⟩, .ok ⟨[3], 1, 1⟩⟩,
           ⟨0, true, .ok ⟨[], 0, 0⟩, .ok ⟨[4], 1, 1⟩⟩,
           ⟨0, true, .ok ⟨[], 0, 0⟩, .ok ⟨[5], 1, 1⟩⟩,
           ⟨0, true, .ok ⟨[], 0, 0⟩, .ok ⟨[6], 1, 1⟩⟩]
        = (.ok w, rest)
      ∧ ∀ j : Nat, w.get? j
          = if j < 2 then
              (([⟨0, true, .ok ⟨[], 0, 0⟩, .ok ⟨[0], 1, 1⟩⟩,
                 ⟨0, true, .ok ⟨[], 0, 0⟩, .ok ⟨[1], 1, 1⟩⟩,
                 ⟨0, true, .ok ⟨[], 0, 0⟩, .ok ⟨[2], 1, 1⟩⟩,
                 ⟨0, true, .ok ⟨[], 0, 0⟩, .ok ⟨[3], 1, 1⟩⟩,
                 ⟨0, true, .ok ⟨[], 0, 0⟩, .ok ⟨[4], 1, 1⟩⟩,
                 ⟨0, true, .ok ⟨[], 0, 0⟩, .ok ⟨[5], 1, 1⟩⟩,
                 ⟨0, true, .ok ⟨[], 0, 0⟩,
                   .ok ⟨[6], 1, 1⟩⟩] : List Packet).filter
                    (eligible ⟨2, 2, false, 0⟩)).map scaledFrame |>.get?
                (2 + (2 + 1) * j)
            else none :=
  window_admits_every_kth ⟨2, 2, false, 0⟩ _ (by decide)

end Timelapse
